import Mathlib

/-!
Shallow embedding of `src/Preprocessing/preprocessing_battery_data_csv.py`.

Values of cells are modelled as `Option ℚ`: `none` plays the role of the
missing-value marker NaN, `some q` is an ordinary number.  A decoded `.mat`
file is modelled as an ordered association list of top-level keys, each
holding a structure that may or may not carry a `cycle` list; each cycle
entry has a `type` string and a `data` block of named numeric channels.
Field access into a structured array that lacks the field raises in Python;
fallible computations therefore live in `Except Unit`.
-/

namespace BatteryPrep

/-- Missing-value marker semantics: `none` is NaN. -/
abbrev Val := Option ℚ

/-- Model of `np.mean`: on an empty array it yields NaN (no exception),
otherwise the arithmetic mean. -/
def npMean (data : List ℚ) : Val :=
  if data = [] then none else some (data.sum / data.length)

/-- Model of `np.min` wrapped in the `try/except` of `extract_stats`: on an
empty array `np.min` raises, which the caller turns into NaN. -/
def npListMin : List ℚ → Val
  | [] => none
  | x :: xs => some (xs.foldl min x)

/-- Model of `np.max` wrapped in the `try/except` of `extract_stats`. -/
def npListMax : List ℚ → Val
  | [] => none
  | x :: xs => some (xs.foldl max x)

/-- The `STAT_FUNCS` dict of the source, in insertion order. -/
def STAT_FUNCS : List (String × (List ℚ → Val)) :=
  [("avg", npMean), ("min", npListMin), ("max", npListMax)]

/-- `extract_stats(data, prefix)`: one `(key, value)` entry per statistic,
key `"{prefix}_{stat_name}"`, failures degraded to NaN inside the
individual statistic functions. -/
def extract_stats (data : List ℚ) (pfx : String) : List (String × Val) :=
  STAT_FUNCS.map (fun sf => (pfx ++ "_" ++ sf.1, sf.2 data))

/-- The `data` block of one cycle entry: named channels in field order. -/
structure CycleData where
  channels : List (String × List ℚ)
deriving DecidableEq

/-- One entry of the `cycle` list: a `type` label and a `data` block. -/
structure Cycle where
  ctype : String
  data : CycleData
deriving DecidableEq

/-- Structured-array field lookup (`data["name"][0]`); `none` models the
exception raised when the field is absent. -/
def lookupChan (d : CycleData) (name : String) : Option (List ℚ) :=
  (d.channels.find? (fun p => p.1 == name)).map Prod.snd

/-- All three sensor channels are present in the cycle's data block. -/
def chansPresent (c : Cycle) : Prop :=
  (lookupChan c.data "Voltage_measured").isSome = true ∧
  (lookupChan c.data "Current_measured").isSome = true ∧
  (lookupChan c.data "Temperature_measured").isSome = true

instance (c : Cycle) : Decidable (chansPresent c) := by
  unfold chansPresent; infer_instance

/-- A feature row: the `features` dict, in insertion order. -/
abbrev FRow := List (String × Val)

/-- The nine statistic entries of a cycle row, prefixed by its type. -/
def statFeatures (c : Cycle) (voltage current temp : List ℚ) : FRow :=
  extract_stats voltage (c.ctype ++ "_voltage") ++
  extract_stats current (c.ctype ++ "_current") ++
  extract_stats temp (c.ctype ++ "_temp")

/-- The two discharge-only entries: last element of `Time` resp. `Capacity`
when the channel is present and non-empty, NaN otherwise. -/
def dischargeExtras (c : Cycle) : FRow :=
  [("discharge_duration_s", (lookupChan c.data "Time").bind List.getLast?),
   ("capacity_Ah", (lookupChan c.data "Capacity").bind List.getLast?)]

/-- Field access raising on absence, as an `Except` computation. -/
def getChan (d : CycleData) (name : String) : Except Unit (List ℚ) :=
  match lookupChan d name with
  | some v => Except.ok v
  | none => Except.error ()

/-- The loop body of `process_battery` for one charge/discharge entry:
reads the three sensor channels (raising when one is absent), computes the
nine statistics, and appends the discharge-only entries when the type is
`"discharge"`. -/
def processCycle (c : Cycle) : Except Unit FRow := do
  let voltage ← getChan c.data "Voltage_measured"
  let current ← getChan c.data "Current_measured"
  let temp ← getChan c.data "Temperature_measured"
  let base := statFeatures c voltage current temp
  if c.ctype == "discharge" then
    Except.ok (base ++ dischargeExtras c)
  else
    Except.ok base

/-- Total form of the row a cycle produces when its channels are present. -/
def cycleRow (c : Cycle) : FRow :=
  let voltage := (lookupChan c.data "Voltage_measured").getD []
  let current := (lookupChan c.data "Current_measured").getD []
  let temp := (lookupChan c.data "Temperature_measured").getD []
  let base := statFeatures c voltage current temp
  if c.ctype == "discharge" then base ++ dischargeExtras c else base

/-- The type filter of the loop: `ctype in ["charge", "discharge"]`. -/
def isCD (c : Cycle) : Bool := c.ctype == "charge" || c.ctype == "discharge"

/-- The extraction loop over the cycle list: skips entries that are neither
charge nor discharge, processes the rest in file order into the
`rows_charge` and `rows_discharge` sequences. -/
def extractRows : List Cycle → Except Unit (List FRow × List FRow)
  | [] => Except.ok ([], [])
  | c :: rest =>
    if isCD c then do
      let row ← processCycle c
      let p ← extractRows rest
      if c.ctype == "discharge" then Except.ok (p.1, row :: p.2)
      else Except.ok (row :: p.1, p.2)
    else extractRows rest

/-- The structure found under one top-level key of the decoded file: it
either carries a `cycle` list or lacks the field. -/
structure MainStruct where
  cycle : Option (List Cycle)
deriving DecidableEq

/-- One decoded `.mat` file: its path and its top-level keys in iteration
order. -/
structure MatFile where
  path : String
  keys : List (String × MainStruct)
deriving DecidableEq

/-- Splitting a character list at every occurrence of a separator, the
semantics of Python's `str.split(sep)` (and of splitting a path at the
directory separator): always at least one group, empty groups kept. -/
def splitOnChar (sep : Char) : List Char → List (List Char)
  | [] => [[]]
  | ch :: rest =>
    match splitOnChar sep rest with
    | [] => [[]]
    | grp :: grps =>
      if ch == sep then [] :: grp :: grps
      else (ch :: grp) :: grps

/-- `os.path.basename(mat_path).split(".")[0]`: the path component after
the last directory separator, truncated at its first dot. -/
def batteryName (p : String) : String :=
  ⟨(splitOnChar '.' ((splitOnChar '/' p.data).getLastD [])).headD []⟩

/-- Python's `k.startswith("__")`. -/
def isInternalKey (k : String) : Bool :=
  k.data.take 2 == ['_', '_']

/-- One output row of a file's table: the `battery` and `cycle` cells plus
the merged charge/discharge feature entries. -/
structure PRow where
  battery : String
  cycle : ℕ
  feats : FRow
deriving DecidableEq

/-- The pairing loop: `min` of the two lengths many rows, `cycle = idx+1`,
dict-merge of the idx-th charge row and idx-th discharge row. -/
def pairRows (bname : String) (rc rd : List FRow) : List PRow :=
  (List.range (min rc.length rd.length)).map fun idx =>
    { battery := bname, cycle := idx + 1, feats := rc.getD idx [] ++ rd.getD idx [] }

/-- `next((k for k in mat.keys() if not k.startswith("__")), None)`. -/
def findMainKey (f : MatFile) : Option (String × MainStruct) :=
  f.keys.find? (fun p => !(isInternalKey p.1))

/-- Processing of the selected main structure: skip when the `cycle` field
is absent, otherwise extract, then pair (an empty pairing yields the empty
table). -/
def processMain (bname : String) (ms : MainStruct) : Except Unit (List PRow) :=
  match ms.cycle with
  | none => Except.ok []
  | some cycles => do
    let p ← extractRows cycles
    if min p.1.length p.2.length = 0 then Except.ok []
    else Except.ok (pairRows bname p.1 p.2)

/-- `process_battery(mat_path)`: detect the main key, then process its
cycle list; a file without a usable key yields the empty table. -/
def process_battery (f : MatFile) : Except Unit (List PRow) :=
  match findMainKey f with
  | none => Except.ok []
  | some km => processMain (batteryName f.path) km.2

/-- The batch loop of `main`: process every file in order and concatenate
the per-file tables (appending an empty table is a no-op, as in the
source's `if not df.empty` guard). -/
def runBatch : List MatFile → Except Unit (List PRow)
  | [] => Except.ok []
  | f :: rest => do
    let df ← process_battery f
    let restRows ← runBatch rest
    Except.ok (df ++ restRows)

/-- `x.max()` of the `cycle` column within one battery group. -/
def groupMaxCycle (t : List PRow) (b : String) : ℕ :=
  ((t.filter (fun r => r.battery == b)).map PRow.cycle).foldr max 0

/-- One row of the final labelled table. -/
structure LRow where
  battery : String
  cycle : ℕ
  feats : FRow
  RUL : ℤ
deriving DecidableEq

/-- The RUL labelling step:
`final_df.groupby("battery")["cycle"].transform(lambda x: x.max() - x)`. -/
def addRUL (t : List PRow) : List LRow :=
  t.map fun r =>
    { battery := r.battery, cycle := r.cycle, feats := r.feats,
      RUL := (groupMaxCycle t r.battery : ℤ) - (r.cycle : ℤ) }

/-- Association lookup on a feature row, first match. -/
def findVal (row : FRow) (k : String) : Option Val :=
  (row.find? (fun p => p.1 == k)).map Prod.snd

/-- The keys of a feature row, in order. -/
def rowKeys (row : FRow) : List String := row.map Prod.fst

/-! ### Helper lemmas about folded minima, maxima and sums -/

lemma foldl_min_le_init (x : ℚ) (xs : List ℚ) : xs.foldl min x ≤ x := by
  induction xs generalizing x with
  | nil => exact le_refl x
  | cons y ys ih => exact le_trans (ih (min x y)) (min_le_left x y)

lemma foldl_min_le_mem (x a : ℚ) (xs : List ℚ) (ha : a ∈ xs) : xs.foldl min x ≤ a := by
  induction xs generalizing x with
  | nil => cases ha
  | cons y ys ih =>
    rcases List.mem_cons.mp ha with h | h
    · subst h
      exact le_trans (foldl_min_le_init (min x a) ys) (min_le_right x a)
    · exact ih (min x y) h

lemma init_le_foldl_max (x : ℚ) (xs : List ℚ) : x ≤ xs.foldl max x := by
  induction xs generalizing x with
  | nil => exact le_refl x
  | cons y ys ih => exact le_trans (le_max_left x y) (ih (max x y))

lemma mem_le_foldl_max (x a : ℚ) (xs : List ℚ) (ha : a ∈ xs) : a ≤ xs.foldl max x := by
  induction xs generalizing x with
  | nil => cases ha
  | cons y ys ih =>
    rcases List.mem_cons.mp ha with h | h
    · subst h
      exact le_trans (le_max_right x a) (init_le_foldl_max (max x a) ys)
    · exact ih (max x y) h

lemma mul_length_le_sum (l : List ℚ) (m : ℚ) (h : ∀ a ∈ l, m ≤ a) :
    m * (l.length : ℚ) ≤ l.sum := by
  induction l with
  | nil => simp
  | cons y ys ih =>
    have hy : m ≤ y := h y (List.mem_cons_self y ys)
    have hys := ih (fun a ha => h a (List.mem_cons_of_mem y ha))
    have hlen : ((y :: ys).length : ℚ) = (ys.length : ℚ) + 1 := by
      push_cast [List.length_cons]; ring
    rw [List.sum_cons, hlen]
    have hexp : m * ((ys.length : ℚ) + 1) = m * (ys.length : ℚ) + m := by ring
    rw [hexp]
    linarith

lemma sum_le_mul_length (l : List ℚ) (M : ℚ) (h : ∀ a ∈ l, a ≤ M) :
    l.sum ≤ M * (l.length : ℚ) := by
  induction l with
  | nil => simp
  | cons y ys ih =>
    have hy : y ≤ M := h y (List.mem_cons_self y ys)
    have hys := ih (fun a ha => h a (List.mem_cons_of_mem y ha))
    have hlen : ((y :: ys).length : ℚ) = (ys.length : ℚ) + 1 := by
      push_cast [List.length_cons]; ring
    rw [List.sum_cons, hlen]
    have hexp : M * ((ys.length : ℚ) + 1) = M * (ys.length : ℚ) + M := by ring
    rw [hexp]
    linarith

/-! ### Claims C4 and C5: the statistics aggregator -/

/-- Claim C4: for every non-empty numeric sequence and every key stem,
`extract_stats` returns exactly the three keys stem_avg, stem_min,
stem_max, all three values are numbers, and min ≤ avg ≤ max. -/
theorem C4_extract_stats_nonempty (data : List ℚ) (pfx : String) (h : data ≠ []) :
    (extract_stats data pfx).map Prod.fst = [pfx ++ "_avg", pfx ++ "_min", pfx ++ "_max"] ∧
    ∃ a m M : ℚ, (extract_stats data pfx).map Prod.snd = [some a, some m, some M] ∧
      m ≤ a ∧ a ≤ M := by
  obtain ⟨x, xs, rfl⟩ := List.exists_cons_of_ne_nil h
  have hlen : (0 : ℚ) < ((x :: xs).length : ℚ) := by
    have : 0 < (x :: xs).length := Nat.succ_pos xs.length
    exact_mod_cast this
  have hminmem : ∀ a ∈ x :: xs, xs.foldl min x ≤ a := by
    intro a ha
    rcases List.mem_cons.mp ha with h1 | h1
    · subst h1; exact foldl_min_le_init a xs
    · exact foldl_min_le_mem x a xs h1
  have hmaxmem : ∀ a ∈ x :: xs, a ≤ xs.foldl max x := by
    intro a ha
    rcases List.mem_cons.mp ha with h1 | h1
    · subst h1; exact init_le_foldl_max a xs
    · exact mem_le_foldl_max x a xs h1
  refine ⟨?_, (x :: xs).sum / ((x :: xs).length : ℚ), xs.foldl min x, xs.foldl max x,
    ?_, ?_, ?_⟩
  · simp [extract_stats, STAT_FUNCS, String.append_assoc]
  · simp [extract_stats, STAT_FUNCS, npMean, npListMin, npListMax]
  · rw [le_div_iff₀ hlen]
    exact mul_length_le_sum (x :: xs) (xs.foldl min x) hminmem
  · rw [div_le_iff₀ hlen]
    exact sum_le_mul_length (x :: xs) (xs.foldl max x) hmaxmem

/-- Witness for C4 at the concrete sequence `[1, 2]` and stem `"v"`. -/
theorem C4_witness :
    (([1, 2] : List ℚ) ≠ []) ∧
    ((extract_stats [1, 2] "v").map Prod.fst = ["v_avg", "v_min", "v_max"] ∧
     ∃ a m M : ℚ, (extract_stats [1, 2] "v").map Prod.snd = [some a, some m, some M] ∧
       m ≤ a ∧ a ≤ M) :=
  ⟨by decide, C4_extract_stats_nonempty [1, 2] "v" (by decide)⟩

/-! ### Lemmas about the extraction loop -/

@[simp] lemma exceptU_bind_ok {α β : Type} (a : α) (f : α → Except Unit β) :
    (Except.ok a : Except Unit α) >>= f = f a := rfl

@[simp] lemma exceptU_bind_error {α β : Type} (f : α → Except Unit β) :
    (Except.error () : Except Unit α) >>= f = Except.error () := rfl

lemma processCycle_eq_ok (c : Cycle) (h : chansPresent c) :
    processCycle c = Except.ok (cycleRow c) := by
  obtain ⟨h1, h2, h3⟩ := h
  obtain ⟨v, hv⟩ := Option.isSome_iff_exists.mp h1
  obtain ⟨cu, hcu⟩ := Option.isSome_iff_exists.mp h2
  obtain ⟨t, ht⟩ := Option.isSome_iff_exists.mp h3
  by_cases hd : c.ctype = "discharge" <;>
    simp [processCycle, cycleRow, getChan, hv, hcu, ht, hd]

lemma processCycle_missing_chan (c : Cycle)
    (h : lookupChan c.data "Voltage_measured" = none ∨
         lookupChan c.data "Current_measured" = none ∨
         lookupChan c.data "Temperature_measured" = none) :
    processCycle c = Except.error () := by
  rcases h with h | h | h
  · simp [processCycle, getChan, h]
  · cases hv : lookupChan c.data "Voltage_measured" <;>
      simp [processCycle, getChan, h, hv]
  · cases hv : lookupChan c.data "Voltage_measured" <;>
      cases hcu : lookupChan c.data "Current_measured" <;>
      simp [processCycle, getChan, h, hv, hcu]

lemma extractRows_eq_filter (cycles : List Cycle)
    (hwf : ∀ c ∈ cycles, isCD c = true → chansPresent c) :
    extractRows cycles = Except.ok
      ((cycles.filter fun c => c.ctype == "charge").map cycleRow,
       (cycles.filter fun c => c.ctype == "discharge").map cycleRow) := by
  induction cycles with
  | nil => simp [extractRows]
  | cons c rest ih =>
    have ihr := ih (fun d hd => hwf d (List.mem_cons_of_mem c hd))
    by_cases hcd : isCD c = true
    · have hpc := processCycle_eq_ok c (hwf c (List.mem_cons_self c rest) hcd)
      have hor : c.ctype = "charge" ∨ c.ctype = "discharge" := by
        simpa [isCD] using hcd
      rcases hor with hco | hco
      · have hne : ¬ c.ctype = "discharge" := by rw [hco]; decide
        simp [extractRows, hcd, hpc, ihr, List.filter_cons, hco, hne]
      · have hne : ¬ c.ctype = "charge" := by rw [hco]; decide
        simp [extractRows, hcd, hpc, ihr, List.filter_cons, hco, hne]
    · have hor : ¬ c.ctype = "charge" ∧ ¬ c.ctype = "discharge" := by
        constructor <;> intro h <;> exact hcd (by simp [isCD, h])
      have hcdf : isCD c = false := by
        simp [isCD, hor.1, hor.2]
      simp [extractRows, hcdf, ihr, List.filter_cons, hor.1, hor.2]

lemma extractRows_filter_invariant (l : List Cycle) :
    extractRows l = extractRows (l.filter isCD) := by
  induction l with
  | nil => rfl
  | cons c rest ih =>
    by_cases hcd : isCD c = true
    · simp [extractRows, List.filter_cons, hcd, ih]
    · simp only [Bool.not_eq_true] at hcd
      simp [extractRows, List.filter_cons, hcd, ih]

lemma extractRows_error (cycles : List Cycle) (c : Cycle) (hmem : c ∈ cycles)
    (hcd : isCD c = true) (herr : processCycle c = Except.error ()) :
    extractRows cycles = Except.error () := by
  induction cycles with
  | nil => cases hmem
  | cons d rest ih =>
    rcases List.mem_cons.mp hmem with h | h
    · subst h
      simp [extractRows, hcd, herr]
    · by_cases hdc : isCD d = true
      · cases hpd : processCycle d with
        | error e => cases e; simp [extractRows, hdc, hpd]
        | ok row => simp [extractRows, hdc, hpd, ih h]
      · simp only [Bool.not_eq_true] at hdc
        simp [extractRows, hdc, ih h]

lemma find?_append_of_all_neg {α : Type} (p : α → Bool) (l1 l2 : List α)
    (h : ∀ x ∈ l1, p x = false) :
    (l1 ++ l2).find? p = l2.find? p := by
  induction l1 with
  | nil => rfl
  | cons y ys ih =>
    have hy := h y (List.mem_cons_self y ys)
    rw [List.cons_append, List.find?_cons_of_neg _ (by simp [hy])]
    exact ih (fun x hx => h x (List.mem_cons_of_mem y hx))

/-- Claim C5: on the empty sequence `extract_stats` never fails and returns
exactly three entries, every value being the missing-value marker. -/
theorem C5_extract_stats_empty (pfx : String) :
    extract_stats [] pfx =
      [(pfx ++ "_avg", none), (pfx ++ "_min", none), (pfx ++ "_max", none)] := by
  simp [extract_stats, STAT_FUNCS, npMean, npListMin, npListMax, String.append_assoc]

/-! ### Concrete input files used by counterexamples and witnesses -/

/-- A data block carrying all five channels (empty numeric content: the
statistics then degrade to NaN, which keeps concrete evaluation purely
structural). -/
def fullChans : CycleData :=
  ⟨[("Voltage_measured", []), ("Current_measured", []), ("Temperature_measured", []),
    ("Time", []), ("Capacity", [])]⟩

/-- A data block lacking the `Temperature_measured` channel. -/
def noTempChans : CycleData :=
  ⟨[("Voltage_measured", []), ("Current_measured", [])]⟩

/-- One well-formed charge cycle followed by a discharge cycle whose
temperature channel is absent. -/
def c1Cycles : List Cycle := [⟨"charge", fullChans⟩, ⟨"discharge", noTempChans⟩]

/-- A file containing `c1Cycles` under a single top-level key. -/
def c1File : MatFile := ⟨"B0005.mat", [("B0005", ⟨some c1Cycles⟩)]⟩

/-- Same shape as `c1File`, used by the C2 counterexample. -/
def c2Cycles : List Cycle := [⟨"charge", fullChans⟩, ⟨"discharge", noTempChans⟩]

/-- A file with one charge-typed and one discharge-typed entry, the
discharge entry missing a sensor channel. -/
def c2File : MatFile := ⟨"B0006.mat", [("B0006", ⟨some c2Cycles⟩)]⟩

/-- A fully well-formed charge/discharge pair. -/
def c2GoodCycles : List Cycle := [⟨"charge", fullChans⟩, ⟨"discharge", fullChans⟩]

/-- A well-formed file, with a leading internal key as `scipy.io.loadmat`
produces. -/
def c2GoodFile : MatFile :=
  ⟨"data/B0007.mat", [("__header__", ⟨none⟩), ("B0007", ⟨some c2GoodCycles⟩)]⟩

/-! ### Claim C1: missing sensor channels abort the file -/

/-- Claim C1 counterexample: on a file holding one well-formed charge cycle
and one discharge cycle whose temperature channel is absent, the claim
predicts a table that still carries a row; `process_battery` instead
propagates the exception from the field access and returns no table at
all. -/
theorem C1_counterexample :
    process_battery c1File = Except.error () ∧
    ∀ rows : List PRow, ¬ process_battery c1File = Except.ok rows := by
  have h : process_battery c1File = Except.error () := by rfl
  exact ⟨h, fun rows hrows => by rw [h] at hrows; cases hrows⟩

/-- Claim C1 amended: when a charge- or discharge-typed entry of the cycle
list lacks one of the three sensor channels, `process_battery` raises (the
file aborts with an uncaught exception) instead of degrading to
missing-value markers; only failures inside the statistic computation are
degraded. -/
theorem C1_missing_channel_aborts (f : MatFile) (k : String) (ms : MainStruct)
    (cycles : List Cycle) (c : Cycle)
    (hk : findMainKey f = some (k, ms)) (hc : ms.cycle = some cycles)
    (hmem : c ∈ cycles) (hcd : isCD c = true)
    (hmiss : lookupChan c.data "Voltage_measured" = none ∨
             lookupChan c.data "Current_measured" = none ∨
             lookupChan c.data "Temperature_measured" = none) :
    process_battery f = Except.error () := by
  have herr := processCycle_missing_chan c hmiss
  have hext := extractRows_error cycles c hmem hcd herr
  simp [process_battery, hk, processMain, hc, hext]

/-- Witness for the amended C1 at the concrete file `c1File`. -/
theorem C1_missing_channel_aborts_witness :
    (findMainKey c1File = some ("B0005", ⟨some c1Cycles⟩) ∧
     lookupChan noTempChans "Temperature_measured" = none) ∧
    process_battery c1File = Except.error () := by
  refine ⟨⟨rfl, rfl⟩, C1_missing_channel_aborts c1File "B0005" ⟨some c1Cycles⟩ c1Cycles
    ⟨"discharge", noTempChans⟩ rfl rfl ?_ (by decide) (Or.inr (Or.inr rfl))⟩
  exact List.mem_cons_of_mem _ (List.mem_cons_self _ _)

/-! ### Claim C2: pairing counts -/

/-- Claim C2 counterexample: `c2File` has exactly one charge-typed and one
discharge-typed entry, so the claim predicts exactly min(1,1) = 1 emitted
row; the missing sensor channel of the discharge entry instead makes
`process_battery` raise, and no table is emitted. -/
theorem C2_counterexample :
    (c2Cycles.filter fun c => c.ctype == "charge").length = 1 ∧
    (c2Cycles.filter fun c => c.ctype == "discharge").length = 1 ∧
    process_battery c2File = Except.error () ∧
    ∀ rows : List PRow, ¬ process_battery c2File = Except.ok rows := by
  have h : process_battery c2File = Except.error () := by rfl
  exact ⟨by decide, by decide, h, fun rows hrows => by rw [h] at hrows; cases hrows⟩

/-- Claim C2 amended: provided every charge/discharge entry of the cycle
list carries the three sensor channels, `process_battery` emits exactly
min(c, d) paired rows, with cycle values 1..min(c, d) strictly increasing
and no gaps, row idx merging the idx-th charge row with the idx-th
discharge row in file order; min(c, d) = 0 gives the empty table. -/
theorem C2_pairing (f : MatFile) (k : String) (ms : MainStruct) (cycles : List Cycle)
    (hk : findMainKey f = some (k, ms)) (hc : ms.cycle = some cycles)
    (hwf : ∀ c ∈ cycles, isCD c = true → chansPresent c) :
    ∃ rows : List PRow,
      process_battery f = Except.ok rows ∧
      rows.length = min (cycles.filter fun c => c.ctype == "charge").length
                        (cycles.filter fun c => c.ctype == "discharge").length ∧
      ∀ i (hi : i < rows.length),
        (rows.get ⟨i, hi⟩).cycle = i + 1 ∧
        (rows.get ⟨i, hi⟩).battery = batteryName f.path ∧
        (rows.get ⟨i, hi⟩).feats =
          (((cycles.filter fun c => c.ctype == "charge").map cycleRow).getD i []) ++
          (((cycles.filter fun c => c.ctype == "discharge").map cycleRow).getD i []) := by
  have hext := extractRows_eq_filter cycles hwf
  have hpb : process_battery f =
      (if min ((cycles.filter fun c => c.ctype == "charge").map cycleRow).length
              ((cycles.filter fun c => c.ctype == "discharge").map cycleRow).length = 0
       then Except.ok []
       else Except.ok (pairRows (batteryName f.path)
              ((cycles.filter fun c => c.ctype == "charge").map cycleRow)
              ((cycles.filter fun c => c.ctype == "discharge").map cycleRow))) := by
    simp [process_battery, hk, processMain, hc, hext]
  by_cases hn : min ((cycles.filter fun c => c.ctype == "charge").map cycleRow).length
      ((cycles.filter fun c => c.ctype == "discharge").map cycleRow).length = 0
  · refine ⟨[], ?_, ?_, ?_⟩
    · rw [hpb, if_pos hn]
    · simpa [List.length_map] using hn.symm
    · intro i hi
      exact absurd hi (by simp)
  · refine ⟨pairRows (batteryName f.path)
        ((cycles.filter fun c => c.ctype == "charge").map cycleRow)
        ((cycles.filter fun c => c.ctype == "discharge").map cycleRow), ?_, ?_, ?_⟩
    · rw [hpb, if_neg hn]
    · simp [pairRows, List.length_map]
    · intro i hi
      have hi' : i < min ((cycles.filter fun c => c.ctype == "charge").map cycleRow).length
          ((cycles.filter fun c => c.ctype == "discharge").map cycleRow).length := by
        simpa [pairRows] using hi
      refine ⟨?_, ?_, ?_⟩ <;>
        simp [pairRows, List.get_eq_getElem, List.getElem_map, List.getElem_range, hi']

/-- Witness for the amended C2 at the concrete file `c2GoodFile`. -/
theorem C2_pairing_witness :
    (findMainKey c2GoodFile = some ("B0007", ⟨some c2GoodCycles⟩) ∧
     (∀ c ∈ c2GoodCycles, isCD c = true → chansPresent c)) ∧
    ∃ rows : List PRow,
      process_battery c2GoodFile = Except.ok rows ∧
      rows.length = min (c2GoodCycles.filter fun c => c.ctype == "charge").length
                        (c2GoodCycles.filter fun c => c.ctype == "discharge").length ∧
      ∀ i (hi : i < rows.length),
        (rows.get ⟨i, hi⟩).cycle = i + 1 ∧
        (rows.get ⟨i, hi⟩).battery = batteryName c2GoodFile.path ∧
        (rows.get ⟨i, hi⟩).feats =
          (((c2GoodCycles.filter fun c => c.ctype == "charge").map cycleRow).getD i []) ++
          (((c2GoodCycles.filter fun c => c.ctype == "discharge").map cycleRow).getD i []) :=
  ⟨⟨rfl, by decide⟩,
   C2_pairing c2GoodFile "B0007" ⟨some c2GoodCycles⟩ c2GoodCycles rfl rfl (by decide)⟩

/-! ### Claim C7: junk entries contribute nothing -/

/-- Claim C7: entries whose type is neither exactly charge nor exactly
discharge contribute nothing: two files agreeing on path and main key whose
cycle lists have the same charge/discharge subsequence (junk inserted,
removed or reordered arbitrarily) produce identical tables. -/
theorem C7_junk_invariance (f1 f2 : MatFile) (k1 k2 : String)
    (ms1 ms2 : MainStruct) (l1 l2 : List Cycle)
    (hpath : f1.path = f2.path)
    (hk1 : findMainKey f1 = some (k1, ms1)) (hk2 : findMainKey f2 = some (k2, ms2))
    (hc1 : ms1.cycle = some l1) (hc2 : ms2.cycle = some l2)
    (hfil : l1.filter isCD = l2.filter isCD) :
    process_battery f1 = process_battery f2 := by
  have h1 : extractRows l1 = extractRows l2 := by
    rw [extractRows_filter_invariant l1, extractRows_filter_invariant l2, hfil]
  simp [process_battery, hk1, hk2, processMain, hc1, hc2, h1, hpath]

/-- A cycle of a type the loop silently drops. -/
def junkCycle : Cycle := ⟨"impedance", fullChans⟩

/-- Cycle list with a junk entry in front. -/
def c7l1 : List Cycle := [junkCycle, ⟨"charge", fullChans⟩, ⟨"discharge", fullChans⟩]

/-- Same charge/discharge subsequence with junk entries moved around. -/
def c7l2 : List Cycle :=
  [⟨"charge", fullChans⟩, junkCycle, ⟨"discharge", fullChans⟩, junkCycle]

/-- File holding `c7l1`. -/
def c7f1 : MatFile := ⟨"B0018.mat", [("B0018", ⟨some c7l1⟩)]⟩

/-- File holding `c7l2`. -/
def c7f2 : MatFile := ⟨"B0018.mat", [("B0018", ⟨some c7l2⟩)]⟩

/-- Witness for C7 at two concrete files with reordered junk. -/
theorem C7_witness :
    c7l1.filter isCD = c7l2.filter isCD ∧
    process_battery c7f1 = process_battery c7f2 :=
  ⟨by decide,
   C7_junk_invariance c7f1 c7f2 "B0018" "B0018" ⟨some c7l1⟩ ⟨some c7l2⟩ c7l1 c7l2
     rfl rfl rfl rfl rfl (by decide)⟩

/-! ### Claim C8: structural absence skips the file, not the batch -/

/-- Claim C8: a file whose record has no non-internal top-level key, or
whose main structure lacks the cycle field, yields the empty table without
raising, and the batch over this file followed by any remaining files
equals the batch over the remaining files alone. -/
theorem C8_structural_absence (f : MatFile)
    (h : (∀ kv ∈ f.keys, isInternalKey kv.1 = true) ∨
         ∃ k ms, findMainKey f = some (k, ms) ∧ ms.cycle = none) :
    process_battery f = Except.ok [] ∧
    ∀ rest : List MatFile, runBatch (f :: rest) = runBatch rest := by
  have hpb : process_battery f = Except.ok [] := by
    rcases h with h | ⟨k, ms, hk, hc⟩
    · have hnone : findMainKey f = none := by
        apply List.find?_eq_none.mpr
        intro kv hkv
        simp [h kv hkv]
      simp [process_battery, hnone]
    · simp [process_battery, hk, processMain, hc]
  refine ⟨hpb, fun rest => ?_⟩
  cases hr : runBatch rest with
  | error e => cases e; simp [runBatch, hpb, hr]
  | ok rows => simp [runBatch, hpb, hr]

/-- A file whose top-level keys are all internal. -/
def c8NoKeyFile : MatFile :=
  ⟨"B0028.mat", [("__header__", ⟨none⟩), ("__version__", ⟨none⟩)]⟩

/-- Witness for C8 at a file carrying only internal keys. -/
theorem C8_witness :
    (∀ kv ∈ c8NoKeyFile.keys, isInternalKey kv.1 = true) ∧
    (process_battery c8NoKeyFile = Except.ok [] ∧
     ∀ rest : List MatFile, runBatch (c8NoKeyFile :: rest) = runBatch rest) :=
  ⟨by decide, C8_structural_absence c8NoKeyFile (Or.inl (by decide))⟩

/-! ### Claim C9: the first non-internal key is selected -/

/-- Claim C9: when the record carries several non-internal top-level keys,
`process_battery` neither fails nor skips: it selects the first
non-internal key in iteration order and processes that structure's cycle
list normally. -/
theorem C9_first_key (f : MatFile) (pre : List (String × MainStruct))
    (k : String) (ms : MainStruct) (rest : List (String × MainStruct))
    (hkeys : f.keys = pre ++ (k, ms) :: rest)
    (hpre : ∀ kv ∈ pre, isInternalKey kv.1 = true)
    (hk : isInternalKey k = false)
    (_hmulti : ∃ kv ∈ rest, isInternalKey kv.1 = false) :
    process_battery f = processMain (batteryName f.path) ms := by
  have hfind : findMainKey f = some (k, ms) := by
    rw [findMainKey, hkeys,
      find?_append_of_all_neg _ pre _ (fun kv hkv => by simp [hpre kv hkv]),
      List.find?_cons_of_pos _ (by simp [hk])]
  simp [process_battery, hfind]

/-- Main structure of the first non-internal key of `c9File`. -/
def c9ms1 : MainStruct := ⟨some c2GoodCycles⟩

/-- Main structure of the second non-internal key of `c9File`. -/
def c9ms2 : MainStruct := ⟨some []⟩

/-- A file carrying two non-internal top-level keys. -/
def c9File : MatFile :=
  ⟨"B0031.mat", [("__header__", ⟨none⟩), ("B0031", c9ms1), ("extra", c9ms2)]⟩

/-- Witness for C9 at a concrete file with two non-internal keys. -/
theorem C9_witness :
    (isInternalKey "B0031" = false ∧ isInternalKey "extra" = false) ∧
    process_battery c9File = processMain (batteryName c9File.path) c9ms1 :=
  ⟨⟨by decide, by decide⟩,
   C9_first_key c9File [("__header__", ⟨none⟩)] "B0031" c9ms1 [("extra", c9ms2)]
     rfl (by decide) (by decide) ⟨("extra", c9ms2), by decide, by decide⟩⟩

/-! ### Claim C3: the RUL labelling -/

lemma le_foldr_max (a : ℕ) (l : List ℕ) (ha : a ∈ l) : a ≤ l.foldr max 0 := by
  induction l with
  | nil => cases ha
  | cons x xs ih =>
    rcases List.mem_cons.mp ha with h | h
    · subst h; exact le_max_left _ _
    · exact le_trans (ih h) (le_max_right _ _)

lemma foldr_max_mem (l : List ℕ) (hl : l ≠ []) : l.foldr max 0 ∈ l := by
  induction l with
  | nil => exact absurd rfl hl
  | cons x xs ih =>
    by_cases hxs : xs = []
    · subst hxs; simp
    · rcases max_choice x (xs.foldr max 0) with h | h
      · rw [List.foldr_cons, h]
        exact List.mem_cons_self _ _
      · rw [List.foldr_cons, h]
        exact List.mem_cons_of_mem _ (ih hxs)

/-- Claim C3: in the labelled table, every row's RUL equals the maximum
cycle value among the rows sharing its battery (a maximum that is attained
by some row of the group) minus the row's own cycle; a row attaining the
group maximum has RUL 0 and every RUL is non-negative. -/
theorem C3_rul (t : List PRow) (s : LRow) (hs : s ∈ addRUL t) :
    ∃ m : ℕ,
      (∀ r ∈ t, r.battery = s.battery → r.cycle ≤ m) ∧
      (∃ r ∈ t, r.battery = s.battery ∧ r.cycle = m) ∧
      s.RUL = (m : ℤ) - (s.cycle : ℤ) ∧
      0 ≤ s.RUL ∧
      (s.cycle = m → s.RUL = 0) := by
  obtain ⟨r, hr, rfl⟩ := List.mem_map.mp hs
  have hbound : ∀ r' ∈ t, r'.battery = r.battery → r'.cycle ≤ groupMaxCycle t r.battery := by
    intro r' hr' hb
    exact le_foldr_max _ _
      (List.mem_map_of_mem _ (List.mem_filter.mpr ⟨hr', by simp [hb]⟩))
  have hself : r ∈ t.filter (fun q => q.battery == r.battery) :=
    List.mem_filter.mpr ⟨hr, by simp⟩
  have hne : (t.filter (fun q => q.battery == r.battery)).map PRow.cycle ≠ [] :=
    List.ne_nil_of_mem (List.mem_map_of_mem _ hself)
  obtain ⟨ra, hra, hcyca⟩ := List.mem_map.mp (foldr_max_mem _ hne)
  refine ⟨groupMaxCycle t r.battery, hbound, ⟨ra, (List.mem_filter.mp hra).1,
    eq_of_beq (List.mem_filter.mp hra).2, hcyca⟩, rfl, ?_, ?_⟩
  · have hle : r.cycle ≤ groupMaxCycle t r.battery := hbound r hr rfl
    simp only [sub_nonneg]
    exact_mod_cast hle
  · intro hm
    have hm' : r.cycle = groupMaxCycle t r.battery := hm
    simp [LRow.RUL, hm']

/-- Table with a single battery group holding cycles 1, 2, 3. -/
def c3Table : List PRow :=
  [⟨"B0005", 1, []⟩, ⟨"B0005", 2, []⟩, ⟨"B0005", 3, []⟩]

/-- The labelled form of `c3Table`'s first row: RUL = max 3 − cycle 1. -/
def c3Row : LRow := ⟨"B0005", 1, [], 2⟩

/-- Witness for C3 at the three-cycle table `c3Table`. -/
theorem C3_witness :
    c3Row ∈ addRUL c3Table ∧
    ∃ m : ℕ,
      (∀ r ∈ c3Table, r.battery = c3Row.battery → r.cycle ≤ m) ∧
      (∃ r ∈ c3Table, r.battery = c3Row.battery ∧ r.cycle = m) ∧
      c3Row.RUL = (m : ℤ) - (c3Row.cycle : ℤ) ∧
      0 ≤ c3Row.RUL ∧
      (c3Row.cycle = m → c3Row.RUL = 0) :=
  ⟨by decide, C3_rul c3Table c3Row (by decide)⟩

/-! ### Claim C6: discharge-only entries -/

lemma statFeatures_keys (c : Cycle) (v cu tm : List ℚ) :
    rowKeys (statFeatures c v cu tm) =
      [c.ctype ++ "_voltage" ++ "_" ++ "avg", c.ctype ++ "_voltage" ++ "_" ++ "min",
       c.ctype ++ "_voltage" ++ "_" ++ "max", c.ctype ++ "_current" ++ "_" ++ "avg",
       c.ctype ++ "_current" ++ "_" ++ "min", c.ctype ++ "_current" ++ "_" ++ "max",
       c.ctype ++ "_temp" ++ "_" ++ "avg", c.ctype ++ "_temp" ++ "_" ++ "min",
       c.ctype ++ "_temp" ++ "_" ++ "max"] := rfl

/-- Claim C6: the feature row produced for a discharge-typed entry carries
`discharge_duration_s` (the last element of the `Time` channel when present
and non-empty, NaN otherwise) and `capacity_Ah` (likewise from `Capacity`);
the row produced for a charge-typed entry carries neither key. -/
theorem C6_discharge_extras (c : Cycle) (row : FRow)
    (h : processCycle c = Except.ok row) :
    (c.ctype = "discharge" →
      findVal row "discharge_duration_s" =
        some ((lookupChan c.data "Time").bind List.getLast?) ∧
      findVal row "capacity_Ah" =
        some ((lookupChan c.data "Capacity").bind List.getLast?)) ∧
    (c.ctype = "charge" →
      ¬ "discharge_duration_s" ∈ rowKeys row ∧ ¬ "capacity_Ah" ∈ rowKeys row) := by
  cases hv : lookupChan c.data "Voltage_measured" with
  | none => rw [processCycle_missing_chan c (Or.inl hv)] at h; cases h
  | some v =>
  cases hcu : lookupChan c.data "Current_measured" with
  | none => rw [processCycle_missing_chan c (Or.inr (Or.inl hcu))] at h; cases h
  | some cu =>
  cases ht : lookupChan c.data "Temperature_measured" with
  | none => rw [processCycle_missing_chan c (Or.inr (Or.inr ht))] at h; cases h
  | some tm =>
  constructor
  · intro hd
    simp [processCycle, getChan, hv, hcu, ht, hd] at h
    have hne9 : ∀ p ∈ statFeatures c v cu tm,
        (fun q : String × Val => q.1 == ("discharge_duration_s" : String)) p = false := by
      intro p hp
      have hmem : p.1 ∈ rowKeys (statFeatures c v cu tm) := List.mem_map_of_mem _ hp
      rw [statFeatures_keys, hd] at hmem
      exact beq_eq_false_iff_ne.mpr (ne_of_mem_of_not_mem hmem (by decide))
    have hne9c : ∀ p ∈ statFeatures c v cu tm,
        (fun q : String × Val => q.1 == ("capacity_Ah" : String)) p = false := by
      intro p hp
      have hmem : p.1 ∈ rowKeys (statFeatures c v cu tm) := List.mem_map_of_mem _ hp
      rw [statFeatures_keys, hd] at hmem
      exact beq_eq_false_iff_ne.mpr (ne_of_mem_of_not_mem hmem (by decide))
    rw [← h]
    constructor
    · simp only [findVal]
      rw [find?_append_of_all_neg _ _ _ hne9]
      rfl
    · simp only [findVal]
      rw [find?_append_of_all_neg _ _ _ hne9c]
      rfl
  · intro hd
    have hlit : ¬ ("charge" : String) = "discharge" := by decide
    simp [processCycle, getChan, hv, hcu, ht, hd, hlit] at h
    rw [← h]
    constructor <;> rw [statFeatures_keys, hd] <;> decide

/-- A well-formed discharge cycle (empty channels: the optional values
degrade to NaN). -/
def c6Cycle : Cycle := ⟨"discharge", fullChans⟩

/-- Witness for C6 at the concrete discharge cycle `c6Cycle`. -/
theorem C6_witness :
    processCycle c6Cycle = Except.ok (cycleRow c6Cycle) ∧
    ((c6Cycle.ctype = "discharge" →
       findVal (cycleRow c6Cycle) "discharge_duration_s" =
         some ((lookupChan c6Cycle.data "Time").bind List.getLast?) ∧
       findVal (cycleRow c6Cycle) "capacity_Ah" =
         some ((lookupChan c6Cycle.data "Capacity").bind List.getLast?)) ∧
     (c6Cycle.ctype = "charge" →
       ¬ "discharge_duration_s" ∈ rowKeys (cycleRow c6Cycle) ∧
       ¬ "capacity_Ah" ∈ rowKeys (cycleRow c6Cycle))) :=
  ⟨rfl, C6_discharge_extras c6Cycle (cycleRow c6Cycle) rfl⟩

/-! ### Claim C10: the battery name -/

lemma mem_pairRows_battery (b : String) (rc rd : List FRow) (r : PRow)
    (hr : r ∈ pairRows b rc rd) : r.battery = b := by
  obtain ⟨idx, _, rfl⟩ := List.mem_map.mp hr
  rfl

lemma process_battery_battery_field (f : MatFile) (rows : List PRow) (r : PRow)
    (h : process_battery f = Except.ok rows) (hr : r ∈ rows) :
    r.battery = batteryName f.path := by
  cases hfk : findMainKey f with
  | none =>
    simp [process_battery, hfk] at h
    subst h; cases hr
  | some km =>
    cases hc : km.2.cycle with
    | none =>
      simp [process_battery, hfk, processMain, hc] at h
      subst h; cases hr
    | some cycles =>
      cases hext : extractRows cycles with
      | error e =>
        cases e
        simp [process_battery, hfk, processMain, hc, hext] at h
      | ok p =>
        simp [process_battery, hfk, processMain, hc, hext] at h
        split at h
        · cases h; cases hr
        · cases h
          exact mem_pairRows_battery _ p.1 p.2 r hr

/-- Claim C10: every emitted row's battery field equals the file's base
name truncated at its first dot (`B0005.mat` gives `B0005`, an interior dot
cuts there); two files in different directories with the same truncated
base name therefore produce rows with equal battery keys, and the RUL
grouping treats them as one group. -/
theorem C10_battery_name (f : MatFile) (rows : List PRow) (r : PRow)
    (h : process_battery f = Except.ok rows) (hr : r ∈ rows) :
    r.battery = batteryName f.path ∧
    batteryName "dirA/B0005.mat" = "B0005" ∧
    batteryName "dirB/B0005.mat" = "B0005" ∧
    batteryName "d/B00.05.mat" = "B00" ∧
    (∀ (f2 : MatFile) (rows2 : List PRow) (r2 : PRow),
      process_battery f2 = Except.ok rows2 → r2 ∈ rows2 →
      batteryName f2.path = batteryName f.path →
      r2.battery = r.battery ∧
      ∀ t : List PRow, groupMaxCycle t r2.battery = groupMaxCycle t r.battery) := by
  have h1 := process_battery_battery_field f rows r h hr
  refine ⟨h1, rfl, rfl, rfl, ?_⟩
  intro f2 rows2 r2 h2 hr2 hbn
  have h3 : r2.battery = r.battery := by
    rw [process_battery_battery_field f2 rows2 r2 h2 hr2, hbn, h1]
  exact ⟨h3, fun t => by rw [h3]⟩

/-- The single row `process_battery` emits for `c2GoodFile`. -/
def c10Row : PRow :=
  ⟨"B0007", 1, cycleRow ⟨"charge", fullChans⟩ ++ cycleRow ⟨"discharge", fullChans⟩⟩

/-- Witness for C10 at the concrete file `c2GoodFile`. -/
theorem C10_witness :
    (process_battery c2GoodFile = Except.ok [c10Row] ∧ c10Row ∈ [c10Row]) ∧
    (c10Row.battery = batteryName c2GoodFile.path ∧
     batteryName "dirA/B0005.mat" = "B0005" ∧
     batteryName "dirB/B0005.mat" = "B0005" ∧
     batteryName "d/B00.05.mat" = "B00" ∧
     (∀ (f2 : MatFile) (rows2 : List PRow) (r2 : PRow),
       process_battery f2 = Except.ok rows2 → r2 ∈ rows2 →
       batteryName f2.path = batteryName c2GoodFile.path →
       r2.battery = c10Row.battery ∧
       ∀ t : List PRow, groupMaxCycle t r2.battery = groupMaxCycle t c10Row.battery)) :=
  ⟨⟨rfl, List.mem_singleton_self _⟩,
   C10_battery_name c2GoodFile [c10Row] c10Row rfl (List.mem_singleton_self _)⟩

end BatteryPrep
